import Mathlib

/-!
Verification of the `3d-globe` preprocessing pipeline
(`scripts/preprocess/hdf_to_overlay.py` and `scripts/preprocess/batch_process.py`).

Shallow embedding conventions:
* Machine floating-point grids are embedded as rational-valued cells; the
  not-a-number sentinel used by the code for invalid cells is embedded as
  `Option ℚ` with `none` = invalid (NaN).  All arithmetic the code performs on
  valid cells is exact linear arithmetic, so ℚ is a faithful carrier.
* 2-D arrays are embedded cellwise as functions `ℕ → ℕ → _`.
* Python dictionaries of HDF attributes are embedded as a structure of
  `Option` fields (absent key = `none`); the `to_scalar` unwrapping of
  1-element sequences is embedded by taking the already-unwrapped scalar.
* Python strings are embedded as Lean `String`; Python string comparison
  (code-point lexicographic) is embedded by the explicit `strLe` order below,
  because it must evaluate inside the kernel.
* The subprocess boundary of the batch orchestrator is embedded by an
  explicit `WorkerOutcome` describing how the worker ended.
-/

namespace Globe

/-! ### Value decoder (`apply_packed_scaling`, hdf_to_overlay.py lines 73-98) -/

/-- Attribute mapping handed to `apply_packed_scaling` (hdf_to_overlay.py).
`fillValue` embeds the `_FillValue` attribute; `valid_range` is `some (lo, hi)`
exactly when a two-element `valid_range` attribute is present. -/
structure PackedAttrs where
  scale_factor : Option ℚ
  add_offset : Option ℚ
  valid_range : Option (ℚ × ℚ)
  fillValue : Option ℚ
deriving DecidableEq

/-- Embedding of `apply_packed_scaling` (hdf_to_overlay.py lines 73-98) on one
cell.  The code casts the raw array to float, replaces cells equal to the
`_FillValue` attribute by NaN (comparison on the raw, packed values), then
replaces cells outside a two-element `valid_range` by NaN (NaN cells stay NaN
because `<`/`>` comparisons with NaN are false), and finally computes
`a * sf + ao` on every cell (NaN propagating through the arithmetic). -/
def apply_packed_scaling (attrs : PackedAttrs) (raw : ℚ) : Option ℚ :=
  let sf := attrs.scale_factor.getD 1
  let ao := attrs.add_offset.getD 0
  let a1 : Option ℚ :=
    match attrs.fillValue with
    | some fv => if raw = fv then none else some raw
    | none => some raw
  let a2 : Option ℚ :=
    match attrs.valid_range with
    | some (lo, hi) => a1.bind fun x => if x < lo ∨ hi < x then none else some x
    | none => a1
  a2.map fun x => x * sf + ao

/-- Cellwise decoding of a whole raw grid, as the code applies
`apply_packed_scaling` to the full array at once. -/
def apply_packed_scaling_grid (attrs : PackedAttrs) (g : ℕ → ℕ → ℚ) :
    ℕ → ℕ → Option ℚ :=
  fun i j => apply_packed_scaling attrs (g i j)

/-- Decoder following the specification text word for word: cells equal to the
fill value, or outside the two-element valid range, are invalid — both
comparisons in packed (pre-scaling) units — and every still-valid cell gets
`raw * scale_factor + add_offset` with defaults 1.0 / 0.0 for absent
attributes; invalid cells remain invalid. -/
def decode_spec (attrs : PackedAttrs) (raw : ℚ) : Option ℚ :=
  let isFill : Bool := attrs.fillValue = some raw
  let outOfRange : Bool :=
    match attrs.valid_range with
    | some (lo, hi) => decide (raw < lo) || decide (hi < raw)
    | none => false
  if isFill || outOfRange then none
  else some (raw * attrs.scale_factor.getD 1 + attrs.add_offset.getD 0)

/-- The attribute mapping of the end-to-end scenario:
`scale_factor = 0.0001`, `add_offset = 0`, `_FillValue = -3000`. -/
def scenarioAttrs : PackedAttrs :=
  { scale_factor := some (1 / 10000)
    add_offset := some 0
    valid_range := none
    fillValue := some (-3000) }

/-- A raw grid holding the packed value `-3000` at cell (0,0). -/
def scenarioRawGrid : ℕ → ℕ → ℚ := fun _ _ => -3000

/-! ### Variable selection (`choose_var`, hdf_to_overlay.py lines 57-71) -/

/-- Embedding of Python `str.lower()` (characterwise lowercase). -/
def lowerStr (s : String) : String := String.mk (s.toList.map Char.toLower)

/-- Embedding of Python `x in s` (substring containment). -/
def containsSub (s sub : String) : Bool :=
  s.toList.tails.any fun t => sub.toList.isPrefixOf t

/-- Embedding of Python `str.endswith`. -/
def endsWithStr (a post : String) : Bool := post.toList.isSuffixOf a.toList

/-- Embedding of Python `c.split("/")[-1]`: the part after the last slash. -/
def leafOf (c : String) : String :=
  String.mk ((c.toList.reverse.takeWhile fun ch => !(ch = '/')).reverse)

/-- The fixed keyword tuple of `choose_var`. -/
def KEYWORDS : List String :=
  ["ndvi", "evi", "snow", "albedo", "nadir", "reflectance"]

/-- Whether an available name contains one of the domain keywords, after
lowercasing, as `any(x in name.lower() for x in (...))` does. -/
def hasKeyword (name : String) : Bool :=
  KEYWORDS.any fun k => containsSub (lowerStr name) k

/-- Embedding of `choose_var` (hdf_to_overlay.py lines 57-71).  When the
candidate list is empty the code scans `available` for a keyword name and
otherwise returns `available[0]`.  When candidates exist it tries exact
membership, then a suffix match of each candidate leaf against the available
names, and otherwise returns `available[0]` directly.  The Python
`available[0]` (which raises on an empty list) is embedded as `headD ""`;
all claims assume a non-empty `available` list. -/
def choose_var (candidates available : List String) : String :=
  if candidates.isEmpty then
    match available.find? hasKeyword with
    | some n => n
    | none => available.headD ""
  else
    match candidates.find? (fun c => available.contains c) with
    | some c => c
    | none =>
      match candidates.findSome? (fun c =>
          available.find? fun a => endsWithStr a (leafOf c)) with
      | some a => a
      | none => available.headD ""

/-- The selection procedure exactly as the claim words it: candidates tried
for an exact match, then for a suffix match, then — whenever no candidate
matched — a keyword fallback over the available names, and only as a last
resort the first available variable. -/
def choose_var_claimed (candidates available : List String) : String :=
  match candidates.find? (fun c => available.contains c) with
  | some c => c
  | none =>
    match candidates.findSome? (fun c =>
        available.find? fun a => endsWithStr a (leafOf c)) with
    | some a => a
    | none =>
      match available.find? hasKeyword with
      | some n => n
      | none => available.headD ""

/-- First strategy of the amended description: exact membership. -/
def exactMatch (candidates available : List String) : Option String :=
  candidates.find? fun c => available.contains c

/-- Second strategy: first available name that ends with a candidate leaf. -/
def suffixMatch (candidates available : List String) : Option String :=
  candidates.findSome? fun c =>
    available.find? fun a => endsWithStr a (leafOf c)

/-- Keyword strategy, used by the code only for an empty candidate list. -/
def keywordMatch (available : List String) : Option String :=
  available.find? hasKeyword

/-- The amended selection procedure: with a non-empty candidate list, exact
match, then suffix match, then the first available name directly (no keyword
search); with an empty candidate list, keyword match then first available. -/
def choose_var_amended (candidates available : List String) : String :=
  if candidates.isEmpty then
    (keywordMatch available).getD (available.headD "")
  else
    ((exactMatch candidates available).or
      (suffixMatch candidates available)).getD (available.headD "")

/-! ### String order (Python string comparison, used by `sorted`) -/

/-- Code-point lexicographic comparison of character lists, exactly Python's
string comparison.  Defined explicitly so that it evaluates by kernel
reduction. -/
def charListLe : List Char → List Char → Bool
  | [], _ => true
  | _ :: _, [] => false
  | a :: as, b :: bs =>
    if a.toNat < b.toNat then true
    else if b.toNat < a.toNat then false
    else charListLe as bs

/-- The order Python's `sorted` uses on strings. -/
def strLe (a b : String) : Prop := charListLe a.toList b.toList = true

instance : DecidableRel strLe := fun a b =>
  inferInstanceAs (Decidable (charListLe a.toList b.toList = true))

/-- Embedding of Python `sorted` on a list of strings. -/
def sortStr (l : List String) : List String := List.insertionSort strLe l

/-! ### Product catalog (`PRODUCT_PATTERNS`, batch_process.py lines 21-72) -/

/-- One catalog entry of `PRODUCT_PATTERNS`.  Every detection regex in the
source has the shape `LITERAL\.A(\d{7})\.`; `patternPrefix` stores the
literal part up to and including the `A`, so the full pattern is
`patternPrefix`, then seven digits (captured), then a dot. -/
structure ProductConfig where
  patternPrefix : String
  id : String
  name : String
  units : String
  varPath : Option String
  extension : String
  minBound : Option ℚ
  maxBound : Option ℚ
deriving DecidableEq

/-- The `viirs_ndvi` catalog entry. -/
def viirsNdviConfig : ProductConfig :=
  { patternPrefix := "VNP13C2.A"
    id := "viirs_ndvi"
    name := "VIIRS NDVI"
    units := "unitless"
    varPath := none
    extension := ".h5"
    minBound := none
    maxBound := none }

/-- The `modis_snow` catalog entry. -/
def modisSnowConfig : ProductConfig :=
  { patternPrefix := "MOD10C1.A"
    id := "modis_snow"
    name := "MODIS Snow Cover"
    units := "%"
    varPath := some "MOD_Grid_Snow_5km/Data Fields/NDSI_Snow_Cover"
    extension := ".hdf"
    minBound := some 0
    maxBound := some 100 }

/-- The `modis_albedo` catalog entry. -/
def modisAlbedoConfig : ProductConfig :=
  { patternPrefix := "MCD43C3.A"
    id := "modis_albedo_sw"
    name := "MODIS Albedo (Shortwave WSA)"
    units := "albedo (0–1)"
    varPath := some "MCD_CMG_BRDF/Data Fields/Albedo_WSA_shortwave"
    extension := ".hdf"
    minBound := some 0
    maxBound := some 1 }

/-- The `modis_nbar` catalog entry. -/
def modisNbarConfig : ProductConfig :=
  { patternPrefix := "MCD43C4.A"
    id := "modis_nbar_band1"
    name := "MODIS NBAR Band1"
    units := "reflectance (0–1)"
    varPath := some "MCD_CMG_Nbar/Data Fields/Nadir_Reflectance_Band1"
    extension := ".hdf"
    minBound := some 0
    maxBound := some (4/10) }

/-- The `modis_lst` catalog entry. -/
def modisLstConfig : ProductConfig :=
  { patternPrefix := "MOD11C3.A"
    id := "modis_lst"
    name := "MODIS Land Surface Temperature"
    units := "Kelvin"
    varPath := some "LST_Day_CMG"
    extension := ".hdf"
    minBound := some 230
    maxBound := some 330 }

/-- The product catalog, in its source (insertion) order. -/
def PRODUCT_PATTERNS : List (String × ProductConfig) :=
  [("viirs_ndvi", viirsNdviConfig),
   ("modis_snow", modisSnowConfig),
   ("modis_albedo", modisAlbedoConfig),
   ("modis_nbar", modisNbarConfig),
   ("modis_lst", modisLstConfig)]

/-! ### Ordinal date decoding (`parse_julian_date`, batch_process.py 75-80) -/

/-- Gregorian leap-year rule, as Python's `datetime` uses. -/
def isLeap (y : ℕ) : Bool := y % 4 == 0 && (y % 100 != 0 || y % 400 == 0)

/-- Month lengths of year `y`, January first. -/
def monthLengths (y : ℕ) : List ℕ :=
  [31, if isLeap y then 29 else 28, 31, 30, 31, 30, 31, 31, 30, 31, 30, 31]

/-- Number of days of year `y`. -/
def daysInYear (y : ℕ) : ℕ := if isLeap y then 366 else 365

/-- Walks the month-length list: given the 1-based remaining day count and the
1-based index of the first month in `months`, returns (month, day-of-month). -/
def monthDayFrom : List ℕ → ℕ → ℕ → ℕ × ℕ
  | [], m0, rem => (m0, rem)
  | len :: rest, m0, rem =>
    if rem ≤ len then (m0, rem) else monthDayFrom rest (m0 + 1) (rem - len)

/-- Embedding of `datetime(year, 1, 1) + timedelta(days = doy - 1)` as a
calendar triple (year, month, day), with the same roll-over into later years
that `timedelta` addition performs when `doy` exceeds the year length.  The
fuel argument makes the recursion structural so that it evaluates by kernel
reduction; each recursive step consumes at least 365 days, so fuel `doy`
never runs out for `doy ≥ 1` (the domain produced by the 1-based ordinal
codes the detector extracts). -/
def dateFromOrdinalAux : ℕ → ℕ → ℕ → ℕ × ℕ × ℕ
  | 0, y, doy => (y, 1, doy)
  | fuel + 1, y, doy =>
    if daysInYear y < doy then dateFromOrdinalAux fuel (y + 1) (doy - daysInYear y)
    else (y, monthDayFrom (monthLengths y) 1 doy)

/-- The calendar date reached from January 1 of year `y` advanced by
`doy - 1` days. -/
def dateFromOrdinal (y doy : ℕ) : ℕ × ℕ × ℕ := dateFromOrdinalAux doy y doy

/-- The day-of-year of calendar date (y, m, d): days of the preceding months
plus the day of month.  This is the re-derivation direction of the
round-trip property. -/
def dayOfYearOf (y m d : ℕ) : ℕ := ((monthLengths y).take (m - 1)).sum + d

/-- Decimal digit character of `d` (for `d ≤ 9`). -/
def digitChar (d : ℕ) : Char := Char.ofNat (48 + d)

/-- Two-digit zero-padded decimal rendering (for values below 100), as
`strftime` renders `%m` and `%d`. -/
def pad2 (n : ℕ) : String := String.mk [digitChar (n / 10 % 10), digitChar (n % 10)]

/-- Four-digit zero-padded decimal rendering (for values below 10000), as
`strftime` renders `%Y` for the four-digit years all catalog codes carry. -/
def pad4 (n : ℕ) : String :=
  String.mk [digitChar (n / 1000 % 10), digitChar (n / 100 % 10),
    digitChar (n / 10 % 10), digitChar (n % 10)]

/-- Renders a calendar triple as `YYYY-MM-DD` (the `%Y-%m-%d` format). -/
def formatDate (ymd : ℕ × ℕ × ℕ) : String :=
  pad4 ymd.1 ++ "-" ++ pad2 ymd.2.1 ++ "-" ++ pad2 ymd.2.2

/-- Embedding of `parse_julian_date` (batch_process.py lines 75-80) on the
7-digit code read as a number: `year = int(s[:4])` is `code / 1000` and
`day_of_year = int(s[4:])` is `code % 1000` for the exactly-7-digit strings
the detection regex captures. -/
def parse_julian_date (code : ℕ) : String :=
  formatDate (dateFromOrdinal (code / 1000) (code % 1000))

/-! ### Product detection (`detect_product`, batch_process.py lines 83-91) -/

/-- Numeric value of a list of decimal digit characters. -/
def digitsToNat (l : List Char) : ℕ :=
  l.foldl (fun n c => 10 * n + (c.toNat - 48)) 0

/-- Tries the pattern `pre`, then seven digits, then a dot, anchored at the
start of `t`; on success returns the captured 7-digit number. -/
def matchAt (pre : List Char) (t : List Char) : Option ℕ :=
  if pre.isPrefixOf t then
    let rest := t.drop pre.length
    let digs := rest.take 7
    if digs.length = 7 ∧ digs.all Char.isDigit ∧ (rest.drop 7).take 1 = ['.']
    then some (digitsToNat digs)
    else none
  else none

/-- Embedding of `re.search` for the fixed-shape catalog patterns
`PREFIX(\d{7})\.`: the match at the leftmost possible start position wins.
Python's `\d` also accepts non-ASCII decimal digits; the embedding restricts
to the ASCII digits all catalog filenames use. -/
def searchPat (pre : String) (s : String) : Option ℕ :=
  s.toList.tails.findSome? fun t => matchAt pre.toList t

/-- Embedding of `detect_product` (batch_process.py lines 83-91): the catalog
entries are tried in insertion order; on the first pattern that fires, the
captured ordinal code is decoded and (product key, config, date) returned;
`none` embeds the `(None, None, None)` no-match result. -/
def detect_product (filename : String) : Option (String × ProductConfig × String) :=
  PRODUCT_PATTERNS.findSome? fun p =>
    (searchPat p.2.patternPrefix filename).map fun code =>
      (p.1, p.2, parse_julian_date code)

/-! ### Worker dispatch (`process_file`, batch_process.py lines 127-156) -/

/-- The wall-clock budget passed to `subprocess.run` per file. -/
def WORKER_TIMEOUT_SECONDS : ℕ := 300

/-- How the worker subprocess for one file ended: a completed run with an
exit code and captured standard-error text, a `TimeoutExpired` raise from
exceeding the wall-clock budget, or any other raised error rendered as its
message.  This is the interface of `subprocess.run` as `process_file`
consumes it. -/
inductive WorkerOutcome where
  | completed (returncode : Int) (stderr : String)
  | timeoutExpired (message : String)
  | raisedError (message : String)
deriving DecidableEq

/-- Embedding of the `subprocess.run(cmd, ..., timeout=300)` boundary: a
worker that needs more than the wall-clock budget raises `TimeoutExpired`;
otherwise it completes with its exit code and stderr text. -/
def runWithTimeout (elapsedSeconds : ℕ) (returncode : Int) (stderr : String) :
    WorkerOutcome :=
  if WORKER_TIMEOUT_SECONDS < elapsedSeconds then
    WorkerOutcome.timeoutExpired "TimeoutExpired"
  else WorkerOutcome.completed returncode stderr

/-- Embedding of `process_file` (batch_process.py lines 127-156): returns
`(success, date, error-text)`.  Exit code 0 is success with no error text; a
non-zero exit code is a failure carrying the stderr text; any raised
exception (timeouts included) is caught and becomes a failure carrying the
exception message.  Nothing propagates. -/
def process_file (date : String) (outcome : WorkerOutcome) :
    Bool × String × Option String :=
  match outcome with
  | WorkerOutcome.completed rc err =>
    if rc = 0 then (true, date, none) else (false, date, some err)
  | WorkerOutcome.timeoutExpired msg => (false, date, some msg)
  | WorkerOutcome.raisedError msg => (false, date, some msg)

/-! ### Manifest update (`update_manifest`, batch_process.py lines 159-196) -/

/-- One entry of `manifest.json`'s `overlays` array. -/
structure Overlay where
  id : String
  name : String
  units : String
  legend : String
  dates : List String
deriving DecidableEq

/-- The static legend image embedded into newly created overlay entries. -/
def LEGEND_PNG : String :=
  "data:image/png;base64,iVBORw0KGgoAAAANSUhEUgAAAAEAAAABCAQAAAC1HAwCAAAAC0lEQVR42mP8/x8AAwMBe6Xk6XkAAAAASUVORK5CYII="

/-- Merging of a batch's dates into an existing entry's dates:
`sorted(set(dates) | existing_dates)` — the sorted duplicate-free
enumeration of the union. -/
def mergeDates (incoming existing : List String) : List String :=
  sortStr ((incoming ++ existing).dedup)

/-- A fresh overlay entry for a product not in the manifest yet; it stores
the batch's date list verbatim. -/
def newOverlay (cfg : ProductConfig) (dates : List String) : Overlay :=
  { id := cfg.id
    name := cfg.name
    units := cfg.units
    legend := LEGEND_PNG
    dates := dates }

/-- Embedding of the per-product body of `update_manifest`: the first overlay
entry whose id matches (as `next(...)` finds it) gets the merged date set;
when none matches, a fresh entry is appended at the end. -/
def updateFirst : List Overlay → ProductConfig → List String → List Overlay
  | [], cfg, dates => [newOverlay cfg dates]
  | o :: rest, cfg, dates =>
    if o.id = cfg.id then { o with dates := mergeDates dates o.dates } :: rest
    else o :: updateFirst rest cfg dates

/-- Embedding of `update_manifest` (batch_process.py lines 159-196): for each
discovered product group (in dictionary order), its file dates are sorted and
merged into the manifest.  The per-group `files[0]['config']` lookup is
embedded by carrying the config at the group level. -/
def update_manifest (overlays : List Overlay)
    (filesByProduct : List (ProductConfig × List String)) : List Overlay :=
  filesByProduct.foldl (fun m pf => updateFirst m pf.1 (sortStr pf.2)) overlays

/-- The date list the manifest records for a product id (first matching
entry, as both `next(...)` and any reader by id see it); `[]` when absent. -/
def datesOf (overlays : List Overlay) (pid : String) : List String :=
  match overlays.find? fun o => o.id == pid with
  | some o => o.dates
  | none => []

/-- Same lookup, distinguishing an absent entry from an empty date list. -/
def datesOfOpt (overlays : List Overlay) (pid : String) : Option (List String) :=
  (overlays.find? fun o => o.id == pid).map fun o => o.dates

/-! ### Batch run (`main`, batch_process.py lines 199-298) -/

/-- One dispatched file of a batch: its decoded date and how its worker
subprocess ended. -/
structure FileTask where
  date : String
  outcome : WorkerOutcome
deriving DecidableEq

/-- The per-file results of a batch, in dispatch order — one result per
dispatched file, exactly as the sequential loop of `main` collects them
(the parallel branch collects the same multiset in completion order). -/
def batchResults (filesByProduct : List (ProductConfig × List FileTask)) :
    List (Bool × String × Option String) :=
  (filesByProduct.flatMap fun pf => pf.2).map fun t =>
    process_file t.date t.outcome

/-- Embedding of the post-scan part of `main` (batch_process.py lines
199-298), for a non-dry run with the conversion script present: if the scan
found nothing, exit 1 with the manifest untouched; otherwise every task is
dispatched, the failures are tallied, the manifest is updated with every
group's dates, and the exit status is 1 when any file failed, else 0.
Returns (exit status, manifest). -/
def runBatch (manifest0 : List Overlay)
    (filesByProduct : List (ProductConfig × List FileTask)) :
    ℕ × List Overlay :=
  if filesByProduct.isEmpty then (1, manifest0)
  else
    let failCount := (batchResults filesByProduct).countP fun r => !r.1
    let manifest := update_manifest manifest0
      (filesByProduct.map fun pf => (pf.1, pf.2.map fun t => t.date))
    (if 0 < failCount then 1 else 0, manifest)

/-! ### Resampling (`resample_bilinear`, hdf_to_overlay.py lines 100-108) -/

/-- The validity surface `np.isfinite(data).astype(np.float32)`:
1.0 on valid cells, 0.0 on invalid ones. -/
def validMask (data : ℕ → ℕ → Option ℚ) : ℕ → ℕ → ℚ :=
  fun i j => if (data i j).isSome then 1 else 0

/-- The data surface `np.where(np.isfinite(data), data, 0.0)`: invalid cells
replaced by 0 before resizing. -/
def fillInvalid (data : ℕ → ℕ → Option ℚ) : ℕ → ℕ → ℚ :=
  fun i j => (data i j).getD 0

/-- The all-zero surface. -/
def zeroGrid : ℕ → ℕ → ℚ := fun _ _ => 0

/-- Embedding of `resample_bilinear` (hdf_to_overlay.py lines 100-108),
parametrized by the resize operator `resize` standing for PIL's
`Image.resize(..., BILINEAR)` at the fixed target size.  The code resizes the
zero-filled data surface and the validity surface with the same kernel, then
invalidates every output cell whose resized mask value is below 0.5.  The
only property of PIL's bilinear kernel any claim relies on is that it is a
convex weighted average per output pixel, hence maps the all-zero surface to
the all-zero surface; that property is a stated hypothesis where used. -/
def resample_bilinear (resize : (ℕ → ℕ → ℚ) → ℕ → ℕ → ℚ)
    (data : ℕ → ℕ → Option ℚ) : ℕ → ℕ → Option ℚ :=
  fun i j =>
    if resize (validMask data) i j < 1/2 then none
    else some (resize (fillInvalid data) i j)

/-! ### Normalization (`main`, hdf_to_overlay.py lines 173-185) -/

/-- The divisor floor `1e-12` of the normalization step. -/
def EPS_DENOM : ℚ := 1 / 10 ^ 12

/-- Embedding of `x = (arr_rs - vmin) / max(1e-12, vmax - vmin)` followed by
`x = np.clip(x, 0.0, 1.0)` on one cell; NaN cells stay NaN through both
steps (`np.clip` keeps NaN), embedded by `Option.map`. -/
def normalizeCell (vmin vmax : ℚ) (v : Option ℚ) : Option ℚ :=
  v.map fun x => min 1 (max 0 ((x - vmin) / max EPS_DENOM (vmax - vmin)))

end Globe

namespace Globe

/-! ## Theorems -/

/-- C1: the value decoder masks fill-value cells and out-of-valid-range cells
in packed units before scaling, applies `raw * scale_factor + add_offset`
(defaults 1.0 / 0.0) to the remaining cells, and invalid cells remain invalid;
its behaviour coincides with the specification decoder on every attribute
mapping and raw value.  In the concrete scenario (`scale_factor = 0.0001`,
`add_offset = 0`, `_FillValue = -3000`) the raw value `-3000` at cell (0,0)
decodes to the invalid marker, not to `-0.3`. -/
theorem apply_packed_scaling_correct :
    (∀ (attrs : PackedAttrs) (raw : ℚ),
      apply_packed_scaling attrs raw = decode_spec attrs raw) ∧
    apply_packed_scaling_grid scenarioAttrs scenarioRawGrid 0 0 = none ∧
    apply_packed_scaling_grid scenarioAttrs scenarioRawGrid 0 0 ≠
      some (-3 / 10) := by
  refine ⟨fun attrs raw => ?_,
    by simp [apply_packed_scaling_grid, apply_packed_scaling, scenarioAttrs,
      scenarioRawGrid],
    by simp [apply_packed_scaling_grid, apply_packed_scaling, scenarioAttrs,
      scenarioRawGrid]⟩
  obtain ⟨sf, ao, vr, fv⟩ := attrs
  simp only [apply_packed_scaling, decode_spec]
  cases fv with
  | none =>
    cases vr with
    | none => simp
    | some p =>
      obtain ⟨lo, hi⟩ := p
      by_cases hlo : raw < lo <;> by_cases hhi : hi < raw <;>
        simp [hlo, hhi, Option.bind]
  | some f =>
    by_cases hf : raw = f
    · cases vr with
      | none => simp [hf]
      | some p =>
        obtain ⟨lo, hi⟩ := p
        simp [hf, Option.bind]
    · have hf' : ¬ (some f = some raw) := by
        intro h
        exact hf (Option.some.inj h).symm
      cases vr with
      | none => simp [hf, hf']
      | some p =>
        obtain ⟨lo, hi⟩ := p
        by_cases hlo : raw < lo <;> by_cases hhi : hi < raw <;>
          simp [hf, hf', hlo, hhi, Option.bind]

/-- C2 counterexample: with candidates `["x"]` and available names
`["other", "ndvi"]` no candidate matches, and the code returns the first
available name `"other"` even though `"ndvi"` — a keyword name — is
available; the claimed ordering (keyword fallback before first-available)
would return `"ndvi"` instead. -/
theorem choose_var_claim_false :
    choose_var ["x"] ["other", "ndvi"] = "other" ∧
    choose_var_claimed ["x"] ["other", "ndvi"] = "ndvi" ∧
    choose_var ["x"] ["other", "ndvi"] ≠
      choose_var_claimed ["x"] ["other", "ndvi"] := by
  refine ⟨by decide, by decide, by decide⟩

/-- C2 (amended): for every candidate and available list, `choose_var`
implements the amended ordered fallback — exact match, then suffix match,
then first available when candidates exist (with no keyword search), and the
keyword fallback only when the candidate list is empty. -/
theorem choose_var_follows_amended_order :
    ∀ (candidates available : List String),
      choose_var candidates available =
        choose_var_amended candidates available := by
  intro candidates available
  simp only [choose_var, choose_var_amended, exactMatch, suffixMatch,
    keywordMatch]
  by_cases hc : candidates.isEmpty
  · simp only [hc, if_true]
    cases available.find? hasKeyword <;> simp
  · simp only [hc, if_false]
    cases candidates.find? (fun c => available.contains c) <;>
      cases hs : candidates.findSome? (fun c =>
        available.find? fun a => endsWithStr a (leafOf c)) <;>
      simp [Option.or, hs]

/-! ### The string order is a total preorder with antisymmetry -/

theorem charListLe_total : ∀ a b : List Char,
    charListLe a b = true ∨ charListLe b a = true := by
  intro a
  induction a with
  | nil => intro b; left; rfl
  | cons x xs ih =>
    intro b
    cases b with
    | nil => right; rfl
    | cons y ys =>
      by_cases hxy : x.toNat < y.toNat
      · left; simp [charListLe, hxy]
      · by_cases hyx : y.toNat < x.toNat
        · right; simp [charListLe, hyx]
        · cases ih ys with
          | inl h => left; simp [charListLe, hxy, hyx, h]
          | inr h => right; simp [charListLe, hxy, hyx, h]

theorem charListLe_trans : ∀ a b c : List Char,
    charListLe a b = true → charListLe b c = true → charListLe a c = true := by
  intro a
  induction a with
  | nil => intro b c _ _; rfl
  | cons x xs ih =>
    intro b c hab hbc
    cases b with
    | nil => simp [charListLe] at hab
    | cons y ys =>
      cases c with
      | nil => simp [charListLe] at hbc
      | cons z zs =>
        simp only [charListLe] at hab hbc ⊢
        by_cases hxy : x.toNat < y.toNat <;> by_cases hyz : y.toNat < z.toNat
        · rw [if_pos (show x.toNat < z.toNat by omega)]
        · rw [if_neg hyz] at hbc
          by_cases hzy : z.toNat < y.toNat
          · rw [if_pos hzy] at hbc; exact absurd hbc (by simp)
          · rw [if_neg hzy] at hbc
            rw [if_pos (show x.toNat < z.toNat by omega)]
        · rw [if_neg hxy] at hab
          by_cases hyx : y.toNat < x.toNat
          · rw [if_pos hyx] at hab; exact absurd hab (by simp)
          · rw [if_neg hyx] at hab
            rw [if_pos (show x.toNat < z.toNat by omega)]
        · rw [if_neg hxy] at hab
          rw [if_neg hyz] at hbc
          by_cases hyx : y.toNat < x.toNat
          · rw [if_pos hyx] at hab; exact absurd hab (by simp)
          · by_cases hzy : z.toNat < y.toNat
            · rw [if_pos hzy] at hbc; exact absurd hbc (by simp)
            · rw [if_neg hyx] at hab
              rw [if_neg hzy] at hbc
              rw [if_neg (show ¬ x.toNat < z.toNat by omega),
                if_neg (show ¬ z.toNat < x.toNat by omega)]
              exact ih ys zs hab hbc

theorem charListLe_antisymm : ∀ a b : List Char,
    charListLe a b = true → charListLe b a = true → a = b := by
  intro a
  induction a with
  | nil =>
    intro b _ hba
    cases b with
    | nil => rfl
    | cons y ys => simp [charListLe] at hba
  | cons x xs ih =>
    intro b hab hba
    cases b with
    | nil => simp [charListLe] at hab
    | cons y ys =>
      simp only [charListLe] at hab hba
      by_cases hxy : x.toNat < y.toNat
      · rw [if_neg (show ¬ y.toNat < x.toNat by omega), if_pos hxy] at hba
        exact absurd hba (by simp)
      · by_cases hyx : y.toNat < x.toNat
        · rw [if_neg hxy, if_pos hyx] at hab
          exact absurd hab (by simp)
        · have hn : x.toNat = y.toNat := by omega
          have hx : x = y := Char.ext (UInt32.ext hn)
          rw [if_neg hxy, if_neg hyx] at hab
          rw [if_neg hyx, if_neg hxy] at hba
          rw [hx, ih ys hab hba]

instance : IsTotal String strLe :=
  ⟨fun a b => charListLe_total a.toList b.toList⟩

instance : IsTrans String strLe :=
  ⟨fun a b c => charListLe_trans a.toList b.toList c.toList⟩

instance : IsAntisymm String strLe := by
  refine ⟨fun a b hab hba => ?_⟩
  have h := charListLe_antisymm a.toList b.toList hab hba
  cases a; cases b
  exact congrArg String.mk h

instance : IsRefl String strLe := by
  refine ⟨fun a => ?_⟩
  cases charListLe_total a.toList a.toList with
  | inl h => exact h
  | inr h => exact h

/-! ### Sorting and date-set merging lemmas -/

theorem sortStr_sorted (l : List String) : List.Sorted strLe (sortStr l) :=
  List.sorted_insertionSort strLe l

theorem sortStr_perm (l : List String) : (sortStr l).Perm l :=
  List.perm_insertionSort strLe l

theorem mem_sortStr {d : String} {l : List String} : d ∈ sortStr l ↔ d ∈ l :=
  (sortStr_perm l).mem_iff

theorem mem_mergeDates {d : String} {A E : List String} :
    d ∈ mergeDates A E ↔ d ∈ A ∨ d ∈ E := by
  simp [mergeDates, mem_sortStr]

theorem sorted_mergeDates (A E : List String) :
    List.Sorted strLe (mergeDates A E) := sortStr_sorted _

theorem nodup_mergeDates (A E : List String) : (mergeDates A E).Nodup :=
  (sortStr_perm _).nodup_iff.mpr (List.nodup_dedup _)

theorem sorted_nodup_ext {l₁ l₂ : List String}
    (s₁ : List.Sorted strLe l₁) (s₂ : List.Sorted strLe l₂)
    (n₁ : l₁.Nodup) (n₂ : l₂.Nodup) (h : ∀ d, d ∈ l₁ ↔ d ∈ l₂) : l₁ = l₂ :=
  List.eq_of_perm_of_sorted ((List.perm_ext_iff_of_nodup n₁ n₂).mpr h) s₁ s₂

theorem mergeDates_left_comm (A B E : List String) :
    mergeDates B (mergeDates A E) = mergeDates A (mergeDates B E) := by
  refine sorted_nodup_ext (sorted_mergeDates _ _) (sorted_mergeDates _ _)
    (nodup_mergeDates _ _) (nodup_mergeDates _ _) fun d => ?_
  simp [mem_mergeDates]
  tauto

theorem mergeDates_comm (A B : List String) :
    mergeDates A B = mergeDates B A := by
  refine sorted_nodup_ext (sorted_mergeDates _ _) (sorted_mergeDates _ _)
    (nodup_mergeDates _ _) (nodup_mergeDates _ _) fun d => ?_
  simp [mem_mergeDates]
  tauto

theorem mergeDates_self_absorb (A E : List String) :
    mergeDates A (mergeDates A E) = mergeDates A E := by
  refine sorted_nodup_ext (sorted_mergeDates _ _) (sorted_mergeDates _ _)
    (nodup_mergeDates _ _) (nodup_mergeDates _ _) fun d => ?_
  simp [mem_mergeDates]

/-! ### Manifest update lemmas -/

theorem datesOfOpt_updateFirst_self (m : List Overlay) (cfg : ProductConfig)
    (dates : List String) :
    datesOfOpt (updateFirst m cfg dates) cfg.id =
      some ((datesOfOpt m cfg.id).elim dates fun ds => mergeDates dates ds) := by
  induction m with
  | nil => simp [updateFirst, datesOfOpt, newOverlay]
  | cons o rest ih =>
    by_cases h : o.id = cfg.id
    · simp [updateFirst, h, datesOfOpt]
    · have hbeq : (o.id == cfg.id) = false := by
        simpa using h
      simp only [updateFirst, h, if_false]
      simpa [datesOfOpt, List.find?, hbeq] using ih

theorem datesOfOpt_updateFirst_ne (m : List Overlay) (cfg : ProductConfig)
    (dates : List String) (pid : String) (h : pid ≠ cfg.id) :
    datesOfOpt (updateFirst m cfg dates) pid = datesOfOpt m pid := by
  induction m with
  | nil =>
    have : (cfg.id == pid) = false := by
      simp
      intro he
      exact h he.symm
    simp [updateFirst, datesOfOpt, newOverlay, this]
  | cons o rest ih =>
    by_cases ho : o.id = cfg.id
    · have hbeq : (o.id == pid) = false := by
        simp [ho]
        intro he
        exact h he.symm
      simp [updateFirst, ho, datesOfOpt, List.find?, hbeq, ho ▸ hbeq]
    · simp only [updateFirst, ho, if_false]
      by_cases hp : o.id = pid
      · simp [datesOfOpt, List.find?, hp]
      · have hbeq : (o.id == pid) = false := by simpa using hp
        simpa [datesOfOpt, List.find?, hbeq] using ih

theorem datesOf_eq_getD (m : List Overlay) (pid : String) :
    datesOf m pid = (datesOfOpt m pid).getD [] := by
  simp only [datesOf, datesOfOpt]
  cases m.find? fun o => o.id == pid <;> simp

theorem mem_datesOf_updateFirst_mono {m : List Overlay} {pid d : String}
    (cfg : ProductConfig) (dates : List String)
    (h : d ∈ datesOf m pid) : d ∈ datesOf (updateFirst m cfg dates) pid := by
  by_cases hp : pid = cfg.id
  · rw [hp] at h ⊢
    rw [datesOf_eq_getD] at h ⊢
    rw [datesOfOpt_updateFirst_self]
    cases hopt : datesOfOpt m cfg.id with
    | none => rw [hopt] at h; simp at h
    | some ds =>
      rw [hopt] at h
      simp only [Option.getD_some] at h
      simp [mem_mergeDates, h]
  · rw [datesOf_eq_getD, datesOfOpt_updateFirst_ne m cfg dates pid hp,
      ← datesOf_eq_getD]
    exact h

theorem mem_datesOf_updateFirst_incoming {m : List Overlay} {d : String}
    (cfg : ProductConfig) (dates : List String) (h : d ∈ dates) :
    d ∈ datesOf (updateFirst m cfg dates) cfg.id := by
  rw [datesOf_eq_getD, datesOfOpt_updateFirst_self]
  cases datesOfOpt m cfg.id with
  | none => simpa using h
  | some ds => simp [mem_mergeDates, h]

theorem mem_datesOf_update_manifest_mono :
    ∀ (groups : List (ProductConfig × List String)) (m : List Overlay)
      (pid d : String), d ∈ datesOf m pid →
      d ∈ datesOf (update_manifest m groups) pid := by
  intro groups
  induction groups with
  | nil => intro m pid d h; simpa [update_manifest] using h
  | cons g rest ih =>
    intro m pid d h
    have step : d ∈ datesOf (updateFirst m g.1 (sortStr g.2)) pid :=
      mem_datesOf_updateFirst_mono g.1 (sortStr g.2) h
    simpa [update_manifest] using
      ih (updateFirst m g.1 (sortStr g.2)) pid d step

theorem mem_datesOf_update_manifest :
    ∀ (groups : List (ProductConfig × List String)) (m : List Overlay)
      (cfg : ProductConfig) (ds : List String) (d : String),
      (cfg, ds) ∈ groups → d ∈ ds →
      d ∈ datesOf (update_manifest m groups) cfg.id := by
  intro groups
  induction groups with
  | nil => intro m cfg ds d h; simp at h
  | cons g rest ih =>
    intro m cfg ds d hg hd
    rw [List.mem_cons] at hg
    cases hg with
    | inl h =>
      have h1 : g.1 = cfg := by rw [← h]
      have h2 : g.2 = ds := by rw [← h]
      have hmem : d ∈ datesOf (updateFirst m g.1 (sortStr g.2)) cfg.id := by
        rw [h1]
        exact mem_datesOf_updateFirst_incoming cfg (sortStr g.2)
          (mem_sortStr.mpr (h2 ▸ hd))
      simpa [update_manifest] using
        mem_datesOf_update_manifest_mono rest _ cfg.id d hmem
    | inr h =>
      simpa [update_manifest] using
        ih (updateFirst m g.1 (sortStr g.2)) cfg ds d h hd

/-- C3 counterexample: a batch whose only file fails (worker exit code 1, so
no artifact set is produced) still gets that file's date recorded in the
manifest — `main` passes the full scan result to `update_manifest` without
filtering by per-file success, so the manifest does not hold only dates for
which artifacts exist. -/
theorem manifest_claim_false_on_failed_conversion :
    (process_file "2025-08-01" (WorkerOutcome.completed 1 "h5py error")).1
      = false ∧
    (runBatch [] [(viirsNdviConfig,
      [⟨"2025-08-01", WorkerOutcome.completed 1 "h5py error"⟩])]).1 = 1 ∧
    "2025-08-01" ∈ datesOf (runBatch [] [(viirsNdviConfig,
      [⟨"2025-08-01", WorkerOutcome.completed 1 "h5py error"⟩])]).2
      "viirs_ndvi" := by
  refine ⟨by decide, by decide, by decide⟩

/-- C3 (amended): after a batch run updates the manifest, the date of every
dispatched file of every detected product group is recorded under that
product's id — regardless of whether the file's conversion succeeded,
failed or timed out. -/
theorem runBatch_manifest_includes_all_dispatched :
    ∀ (manifest0 : List Overlay)
      (fbp : List (ProductConfig × List FileTask))
      (cfg : ProductConfig) (tasks : List FileTask) (t : FileTask),
      (cfg, tasks) ∈ fbp → t ∈ tasks →
      t.date ∈ datesOf (runBatch manifest0 fbp).2 cfg.id := by
  intro m0 fbp cfg tasks t hg ht
  have hne : fbp.isEmpty = false := by
    cases fbp with
    | nil => simp at hg
    | cons pf rest => rfl
  simp only [runBatch, hne, Bool.false_eq_true, if_false]
  exact mem_datesOf_update_manifest _ m0 cfg (tasks.map fun t => t.date) t.date
    (List.mem_map.mpr ⟨(cfg, tasks), hg, rfl⟩)
    (List.mem_map.mpr ⟨t, ht, rfl⟩)

/-- C3 amended witness: the failed file's date of the counterexample batch is
indeed recorded. -/
theorem runBatch_manifest_includes_all_dispatched_witness :
    ("2025-08-01" : String) ∈ datesOf (runBatch []
      [(viirsNdviConfig,
        [⟨"2025-08-01", WorkerOutcome.completed 1 "h5py error"⟩])]).2
      viirsNdviConfig.id :=
  runBatch_manifest_includes_all_dispatched [] _ viirsNdviConfig
    [⟨"2025-08-01", WorkerOutcome.completed 1 "h5py error"⟩]
    ⟨"2025-08-01", WorkerOutcome.completed 1 "h5py error"⟩
    (by decide) (by decide)

/-- C5 counterexample: a batch holding the same date twice for a product not
yet in the manifest creates a fresh entry whose stored date list contains
that date twice — `update_manifest` deduplicates only when merging into an
existing entry, so "after every merge the stored dates are unique" fails. -/
theorem manifest_merge_claim_false :
    datesOf (update_manifest []
        [(viirsNdviConfig, ["2025-08-01", "2025-08-01"])]) "viirs_ndvi"
      = ["2025-08-01", "2025-08-01"] ∧
    ¬ (datesOf (update_manifest []
        [(viirsNdviConfig, ["2025-08-01", "2025-08-01"])])
        "viirs_ndvi").Nodup := by
  refine ⟨by decide, by decide⟩

/-- C5 (amended): merging into an existing entry is a set union producing
unique, sorted dates; at the level of recorded date sets merging is
commutative, re-merging the same batch changes nothing (and changes the
stored list not at all when the entry already existed), and no already
recorded date is ever dropped.  Only a freshly created entry stores the
batch's date list verbatim, so it may hold duplicates when the batch itself
has duplicate dates. -/
theorem manifest_merge_amended_correct :
    (∀ A E : List String, List.Sorted strLe (mergeDates A E) ∧
      (mergeDates A E).Nodup ∧
      (∀ d, d ∈ mergeDates A E ↔ d ∈ A ∨ d ∈ E)) ∧
    (∀ (m : List Overlay) (cfg : ProductConfig) (A B : List String),
      datesOf (updateFirst (updateFirst m cfg A) cfg B) cfg.id =
        datesOf (updateFirst (updateFirst m cfg B) cfg A) cfg.id) ∧
    (∀ (m : List Overlay) (cfg : ProductConfig) (A : List String) (d : String),
      d ∈ datesOf (updateFirst (updateFirst m cfg A) cfg A) cfg.id ↔
        d ∈ datesOf (updateFirst m cfg A) cfg.id) ∧
    (∀ (m : List Overlay) (cfg : ProductConfig) (A : List String),
      (datesOfOpt m cfg.id).isSome →
      datesOf (updateFirst (updateFirst m cfg A) cfg A) cfg.id =
        datesOf (updateFirst m cfg A) cfg.id) ∧
    (∀ (m : List Overlay) (cfg : ProductConfig) (A : List String)
      (pid d : String),
      d ∈ datesOf m pid → d ∈ datesOf (updateFirst m cfg A) pid) := by
  refine ⟨fun A E => ⟨sorted_mergeDates A E, nodup_mergeDates A E,
      fun d => mem_mergeDates⟩, ?_, ?_, ?_,
    fun m cfg A pid d h => mem_datesOf_updateFirst_mono cfg A h⟩
  · intro m cfg A B
    rw [datesOf_eq_getD, datesOf_eq_getD, datesOfOpt_updateFirst_self,
      datesOfOpt_updateFirst_self, datesOfOpt_updateFirst_self,
      datesOfOpt_updateFirst_self]
    cases hopt : datesOfOpt m cfg.id with
    | none => simp [mergeDates_comm]
    | some ds => simp [mergeDates_left_comm]
  · intro m cfg A d
    rw [datesOf_eq_getD, datesOf_eq_getD, datesOfOpt_updateFirst_self,
      datesOfOpt_updateFirst_self]
    cases hopt : datesOfOpt m cfg.id with
    | none => simp [mem_mergeDates]
    | some ds => simp [mergeDates_self_absorb]
  · intro m cfg A hsome
    rw [datesOf_eq_getD, datesOf_eq_getD, datesOfOpt_updateFirst_self,
      datesOfOpt_updateFirst_self]
    cases hopt : datesOfOpt m cfg.id with
    | none => rw [hopt] at hsome; simp at hsome
    | some ds => simp [mergeDates_self_absorb]

/-- C5 amended witness: re-merging the batch `["2025-08-01"]` into a manifest
that already holds an entry for the product changes nothing. -/
theorem manifest_merge_amended_witness :
    datesOf (updateFirst (updateFirst
        [newOverlay viirsNdviConfig ["2025-07-01"]] viirsNdviConfig
        ["2025-08-01"]) viirsNdviConfig ["2025-08-01"]) viirsNdviConfig.id =
      datesOf (updateFirst [newOverlay viirsNdviConfig ["2025-07-01"]]
        viirsNdviConfig ["2025-08-01"]) viirsNdviConfig.id :=
  manifest_merge_amended_correct.2.2.2.1
    [newOverlay viirsNdviConfig ["2025-07-01"]] viirsNdviConfig
    ["2025-08-01"] (by decide)

/-- C8: the batch exit status is 0 exactly when the scan found at least one
matching file and every dispatched file succeeded; it is 1 (the only other
value) when any file failed or when no matching files were found. -/
theorem batch_exit_status_correct :
    ∀ (manifest0 : List Overlay)
      (fbp : List (ProductConfig × List FileTask)),
      ((runBatch manifest0 fbp).1 = 0 ↔
        fbp ≠ [] ∧ ∀ pf ∈ fbp, ∀ t ∈ pf.2,
          (process_file t.date t.outcome).1 = true) ∧
      ((runBatch manifest0 fbp).1 = 0 ∨ (runBatch manifest0 fbp).1 = 1) := by
  intro m0 fbp
  rcases fbp with _ | ⟨pf, rest⟩
  · refine ⟨by simp [runBatch], by right; rfl⟩
  · have hiff : (((batchResults (pf :: rest)).countP fun r => !r.1) = 0) ↔
        ∀ g ∈ pf :: rest, ∀ t ∈ g.2,
          (process_file t.date t.outcome).1 = true := by
      rw [List.countP_eq_zero]
      simp only [batchResults, List.mem_map, List.mem_flatMap]
      constructor
      · intro h g hg t ht
        have := h (process_file t.date t.outcome) ⟨t, ⟨g, hg, ht⟩, rfl⟩
        simpa using this
      · rintro h r ⟨t, ⟨g, hg, ht⟩, hr⟩
        subst hr
        simp [h g hg t ht]
    constructor
    · simp only [runBatch, List.isEmpty_cons, Bool.false_eq_true, if_false]
      split_ifs with h1
      · constructor
        · intro h; exact h.elim
        · rintro ⟨-, hall⟩
          exact absurd (hiff.mpr hall) (by omega)
      · constructor
        · intro _
          exact ⟨by simp, hiff.mp (by omega)⟩
        · intro _; trivial
    · simp only [runBatch, List.isEmpty_cons, Bool.false_eq_true, if_false]
      split_ifs <;> simp

/-- C8 witness: a one-file batch whose worker exits 0 gets exit status 0. -/
theorem batch_exit_status_witness :
    (runBatch [] [(viirsNdviConfig,
      [⟨"2025-08-01", WorkerOutcome.completed 0 ""⟩])]).1 = 0 :=
  (batch_exit_status_correct [] _).1.mpr ⟨by decide, by decide⟩

/-- C9: every per-file worker ending other than a clean exit-code-0
completion — a non-zero exit, a `TimeoutExpired` raise from exceeding the
300-second wall-clock budget, or any other raised exception — is converted
by `process_file` into a failure result carrying the captured error text,
and never propagates; and a batch produces exactly one result per dispatched
file, so the remaining files are always processed. -/
theorem process_file_failures_recorded :
    (∀ (date : String) (rc : Int) (err : String), rc ≠ 0 →
      process_file date (WorkerOutcome.completed rc err) =
        (false, date, some err)) ∧
    (∀ (date msg : String),
      process_file date (WorkerOutcome.timeoutExpired msg) =
        (false, date, some msg)) ∧
    (∀ (date msg : String),
      process_file date (WorkerOutcome.raisedError msg) =
        (false, date, some msg)) ∧
    (∀ (date : String) (elapsed : ℕ) (rc : Int) (err : String),
      WORKER_TIMEOUT_SECONDS < elapsed →
      process_file date (runWithTimeout elapsed rc err) =
        (false, date, some "TimeoutExpired")) ∧
    (∀ fbp : List (ProductConfig × List FileTask),
      (batchResults fbp).length = (fbp.flatMap fun pf => pf.2).length) := by
  refine ⟨?_, fun date msg => rfl, fun date msg => rfl, ?_, ?_⟩
  · intro date rc err h
    simp [process_file, h]
  · intro date elapsed rc err h
    simp [runWithTimeout, h, process_file]
  · intro fbp
    simp [batchResults]

/-- C9 witness: a worker exiting 1 and a worker exceeding the wall-clock
budget both become failure records with their error text. -/
theorem process_file_failures_recorded_witness :
    process_file "2025-08-01" (WorkerOutcome.completed 1 "boom") =
      (false, "2025-08-01", some "boom") ∧
    process_file "2025-08-01" (runWithTimeout 301 0 "") =
      (false, "2025-08-01", some "TimeoutExpired") :=
  ⟨process_file_failures_recorded.1 "2025-08-01" 1 "boom" (by decide),
   process_file_failures_recorded.2.2.2.1 "2025-08-01" 301 0 "" (by decide)⟩

/-! ### Ordinal date round-trip lemmas -/

theorem monthDayFrom_fst_ge : ∀ (months : List ℕ) (m0 rem : ℕ),
    m0 ≤ (monthDayFrom months m0 rem).1 := by
  intro months
  induction months with
  | nil => intro m0 rem; simp [monthDayFrom]
  | cons len rest ih =>
    intro m0 rem
    by_cases h : rem ≤ len
    · simp [monthDayFrom, h]
    · simp only [monthDayFrom, h, if_false]
      exact le_trans (Nat.le_succ m0) (ih (m0 + 1) (rem - len))

theorem monthDayFrom_take_sum : ∀ (months : List ℕ) (m0 rem : ℕ),
    1 ≤ rem → rem ≤ months.sum →
    (months.take ((monthDayFrom months m0 rem).1 - m0)).sum
      + (monthDayFrom months m0 rem).2 = rem := by
  intro months
  induction months with
  | nil =>
    intro m0 rem h1 h2
    simp only [List.sum_nil] at h2
    omega
  | cons len rest ih =>
    intro m0 rem h1 h2
    by_cases h : rem ≤ len
    · simp [monthDayFrom, h]
    · simp only [monthDayFrom, h, if_false]
      have h1' : 1 ≤ rem - len := by omega
      have h2' : rem - len ≤ rest.sum := by
        simp only [List.sum_cons] at h2
        omega
      have hsum := ih (m0 + 1) (rem - len) h1' h2'
      have hge := monthDayFrom_fst_ge rest (m0 + 1) (rem - len)
      have hidx : (monthDayFrom rest (m0 + 1) (rem - len)).1 - m0
          = ((monthDayFrom rest (m0 + 1) (rem - len)).1 - (m0 + 1)) + 1 := by
        omega
      rw [hidx, List.take_succ_cons, List.sum_cons]
      omega

theorem daysInYear_eq_sum (y : ℕ) : daysInYear y = (monthLengths y).sum := by
  cases h : isLeap y <;> simp [daysInYear, monthLengths, h]

/-- C6: for a valid ordinal code, the decoded date is January 1 of the coded
year advanced by (day-of-year − 1) days, staying inside that year, and
re-deriving the day-of-year from the resulting calendar date returns the
original value; at the leap-year boundary, code 2024001 renders as
`2024-01-01` and code 2024366 as `2024-12-31`. -/
theorem julian_date_roundtrip :
    (∀ y doy : ℕ, 1 ≤ doy → doy ≤ daysInYear y →
      (dateFromOrdinal y doy).1 = y ∧
      dayOfYearOf (dateFromOrdinal y doy).1 (dateFromOrdinal y doy).2.1
        (dateFromOrdinal y doy).2.2 = doy) ∧
    parse_julian_date 2024001 = "2024-01-01" ∧
    parse_julian_date 2024366 = "2024-12-31" := by
  refine ⟨?_, by decide, by decide⟩
  intro y doy h1 h2
  obtain ⟨n, rfl⟩ : ∃ n, doy = n + 1 := ⟨doy - 1, by omega⟩
  have hnotlt : ¬ daysInYear y < n + 1 := by omega
  simp only [dateFromOrdinal, dateFromOrdinalAux, hnotlt, if_false]
  refine ⟨by trivial, ?_⟩
  have hsum := monthDayFrom_take_sum (monthLengths y) 1 (n + 1) (by omega)
    (by rw [← daysInYear_eq_sum]; exact h2)
  simpa [dayOfYearOf] using hsum

/-- C6 witness: the round trip at the leap-year boundary 2024, day 366. -/
theorem julian_date_roundtrip_witness :
    (dateFromOrdinal 2024 366).1 = 2024 ∧
    dayOfYearOf (dateFromOrdinal 2024 366).1 (dateFromOrdinal 2024 366).2.1
      (dateFromOrdinal 2024 366).2.2 = 366 :=
  julian_date_roundtrip.1 2024 366 (by decide) (by decide)

/-- C7: the detector tries the catalog patterns in catalog order and returns
product and decoded date of the first match — the filename
`VNP13C2.A2025213.002.x.h5` yields product `viirs_ndvi` with date
`2025-08-01`, and a filename matching several patterns yields the first
catalog entry that fires even when another pattern matches earlier in the
string — and it returns the no-match skip signal `none` exactly when no
catalog pattern fires anywhere in the filename. -/
theorem detect_product_correct :
    detect_product "VNP13C2.A2025213.002.x.h5" =
      some ("viirs_ndvi", viirsNdviConfig, "2025-08-01") ∧
    (∀ s : String, detect_product s = none ↔
      ∀ p ∈ PRODUCT_PATTERNS, searchPat p.2.patternPrefix s = none) ∧
    detect_product "MOD10C1.A2025276.VNP13C2.A2025213.x.h5" =
      some ("viirs_ndvi", viirsNdviConfig, "2025-08-01") := by
  refine ⟨by decide, ?_, by decide⟩
  intro s
  simp [detect_product, List.findSome?_eq_none_iff, Option.map_eq_none']

/-- C7 witness: a filename matching no catalog pattern is skipped with the
no-match signal, not an error. -/
theorem detect_product_correct_witness :
    detect_product "random_file.txt" = none :=
  (detect_product_correct.2.1 "random_file.txt").mpr (by decide)

/-- C4: a resampled cell is invalid exactly when the resized validity mask at
that cell is below 0.5, and otherwise carries the resized value of the
zero-filled data surface; consequently, for any resize kernel that maps the
all-zero surface to itself (as PIL's bilinear weighted average does), a
fully-invalid source grid resamples to a fully-invalid grid. -/
theorem resample_bilinear_mask_semantics :
    ∀ (resize : (ℕ → ℕ → ℚ) → ℕ → ℕ → ℚ) (data : ℕ → ℕ → Option ℚ)
      (i j : ℕ),
      (resample_bilinear resize data i j = none ↔
        resize (validMask data) i j < 1/2) ∧
      (¬ resize (validMask data) i j < 1/2 →
        resample_bilinear resize data i j =
          some (resize (fillInvalid data) i j)) ∧
      (resize zeroGrid = zeroGrid → (∀ a b, data a b = none) →
        resample_bilinear resize data i j = none) := by
  intro resize data i j
  refine ⟨?_, ?_, ?_⟩
  · simp only [resample_bilinear]
    split_ifs with h
    · exact ⟨fun _ => h, fun _ => rfl⟩
    · exact ⟨fun heq => by simp at heq, fun hlt => absurd hlt h⟩
  · intro h
    simp only [resample_bilinear, if_neg h]
  · intro hzero hdata
    have hmask : validMask data = zeroGrid := by
      funext a b
      simp [validMask, hdata a b, zeroGrid]
    simp only [resample_bilinear, hmask, hzero]
    norm_num [zeroGrid]

/-- C4 witness: the fully-invalid grid stays fully invalid under the
identity resize kernel, which maps the zero surface to itself. -/
theorem resample_bilinear_mask_semantics_witness :
    resample_bilinear (fun g => g) (fun _ _ => none) 0 0 = none :=
  (resample_bilinear_mask_semantics (fun g => g) (fun _ _ => none) 0 0).2.2
    rfl (fun _ _ => rfl)

/-- C10: for every pair of normalization bounds — the degenerate equal and
inverted pairs included — the normalization divisor `max(1e-12, vmax - vmin)`
is strictly positive (so no division by zero can occur), every valid cell's
normalized value is clamped into [0, 1] before colorization, invalid cells
stay invalid, and in the fully degenerate case `vmin = vmax = 5` the value 7
normalizes to exactly 1. -/
theorem normalize_clamped_and_safe :
    ∀ vmin vmax : ℚ,
      0 < max EPS_DENOM (vmax - vmin) ∧
      (∀ x : ℚ,
        normalizeCell vmin vmax (some x) =
          some (min 1 (max 0 ((x - vmin) / max EPS_DENOM (vmax - vmin)))) ∧
        (0:ℚ) ≤ min 1 (max 0 ((x - vmin) / max EPS_DENOM (vmax - vmin))) ∧
        min 1 (max 0 ((x - vmin) / max EPS_DENOM (vmax - vmin))) ≤ 1) ∧
      normalizeCell vmin vmax none = none ∧
      normalizeCell 5 5 (some 7) = some 1 := by
  intro vmin vmax
  refine ⟨?_, ?_, rfl, ?_⟩
  · exact lt_max_iff.mpr (Or.inl (by norm_num [EPS_DENOM]))
  · intro x
    exact ⟨rfl, le_min (by norm_num) (le_max_left 0 _), min_le_left _ _⟩
  · have hmax : max EPS_DENOM ((5:ℚ) - 5) = EPS_DENOM := by
      apply max_eq_left
      norm_num [EPS_DENOM]
    simp only [normalizeCell, Option.map_some', hmax]
    norm_num [EPS_DENOM]

end Globe
